import Mathlib

/-!
Shallow embedding of the flappy-bird neural-network repository core:
the two-layer `NeuralNetwork` (neuralNetwork source file) and the
`Trainer` with its bounded FIFO sample buffer (trainer.ts).

Numbers are modelled as exact reals; JS arrays as `List ℝ` with the
out-of-range default 0; the JS `null` caches as `Option`; thrown JS
exceptions as `Except String`.  Ambient randomness (weight
initialisation, Fisher-Yates shuffle) is passed in explicitly as a
function argument, so every operation is a deterministic function of
its inputs.
-/

noncomputable section

/-- The normalized telemetry record produced by `Game.getGameState`. -/
structure GameState where
  birdY : ℝ
  birdVelocity : ℝ
  pipeDistance : ℝ
  pipeGapY : ℝ

/-- One training sample: `{inputs, target}` as built by `Trainer.addSample`. -/
structure Sample where
  inputs : List ℝ
  target : List ℝ

/-- The `NeuralNetwork` class state: declared sizes, the four parameter
arrays, and the three nullable cached-activation fields. -/
structure NeuralNetwork where
  inputSize : ℕ
  hiddenSize : ℕ
  outputSize : ℕ
  weightsIH : List (List ℝ)
  weightsHO : List (List ℝ)
  biasH : List ℝ
  biasO : List ℝ
  lastInputs : Option (List ℝ)
  lastHidden : Option (List ℝ)
  lastOutput : Option (List ℝ)

/-- JS 2-d array read `m[i][j]` (0 as the out-of-range default). -/
def idx2 (m : List (List ℝ)) (i j : ℕ) : ℝ :=
  (m.getD i []).getD j 0

/-- Source `initializeWeights(rows, cols)`: a rows×cols matrix of draws from the
ambient random generator (source: `Math.random() * 2 - 1`); the generator
is abstracted as an explicit function of the two loop indices. -/
def initializeWeights (rows cols : ℕ) (rand : ℕ → ℕ → ℝ) : List (List ℝ) :=
  (List.range rows).map fun i => (List.range cols).map fun j => rand i j

/-- The `NeuralNetwork` constructor: random weights, zero biases,
`null` activation caches. -/
def mkNetwork (inputSize hiddenSize outputSize : ℕ) (randIH randHO : ℕ → ℕ → ℝ) :
    NeuralNetwork :=
  { inputSize := inputSize
    hiddenSize := hiddenSize
    outputSize := outputSize
    weightsIH := initializeWeights inputSize hiddenSize randIH
    weightsHO := initializeWeights hiddenSize outputSize randHO
    biasH := List.replicate hiddenSize 0
    biasO := List.replicate outputSize 0
    lastInputs := none
    lastHidden := none
    lastOutput := none }

/-- Dimension well-formedness: the four parameter arrays have exactly the
declared sizes (established by the constructor, maintained by every
mutating operation). -/
def WF (nn : NeuralNetwork) : Prop :=
  nn.weightsIH.length = nn.inputSize ∧
  (∀ row ∈ nn.weightsIH, row.length = nn.hiddenSize) ∧
  nn.weightsHO.length = nn.hiddenSize ∧
  (∀ row ∈ nn.weightsHO, row.length = nn.outputSize) ∧
  nn.biasH.length = nn.hiddenSize ∧
  nn.biasO.length = nn.outputSize

/-- Source `sigmoid(x) = 1 / (1 + Math.exp(-Math.max(-500, Math.min(500, x))))`. -/
def sigmoid (x : ℝ) : ℝ :=
  1 / (1 + Real.exp (-(max (-500) (min 500 x))))

/-- Source `sigmoidDerivative(x) = x * (1 - x)`. -/
def sigmoidDerivative (x : ℝ) : ℝ :=
  x * (1 - x)

/-- Pre-activation of hidden unit `h`:
`biasH[h] + Σ_i inputs[i] * weightsIH[i][h]`. -/
def hiddenPre (nn : NeuralNetwork) (inputs : List ℝ) (h : ℕ) : ℝ :=
  nn.biasH.getD h 0 + ∑ i ∈ Finset.range nn.inputSize, inputs.getD i 0 * idx2 nn.weightsIH i h

/-- The hidden-layer activation vector computed by `forwardPass`. -/
def hiddenActs (nn : NeuralNetwork) (inputs : List ℝ) : List ℝ :=
  (List.range nn.hiddenSize).map fun h => sigmoid (hiddenPre nn inputs h)

/-- Pre-activation of output unit `o`:
`biasO[o] + Σ_h hidden[h] * weightsHO[h][o]`. -/
def outputPre (nn : NeuralNetwork) (hidden : List ℝ) (o : ℕ) : ℝ :=
  nn.biasO.getD o 0 + ∑ h ∈ Finset.range nn.hiddenSize, hidden.getD h 0 * idx2 nn.weightsHO h o

/-- The output-layer activation vector computed by `forwardPass`. -/
def outputActs (nn : NeuralNetwork) (hidden : List ℝ) : List ℝ :=
  (List.range nn.outputSize).map fun o => sigmoid (outputPre nn hidden o)

/-- The value returned by a (successful) forward pass, as a function of
the parameters only. -/
def forwardOutput (nn : NeuralNetwork) (inputs : List ℝ) : List ℝ :=
  outputActs nn (hiddenActs nn inputs)

/-- Source `forwardPass(inputs)`: throws on a dimension mismatch, otherwise
computes both layers and overwrites the three activation caches.
Returns the updated network together with the output vector. -/
def forwardPass (nn : NeuralNetwork) (inputs : List ℝ) :
    Except String (NeuralNetwork × List ℝ) :=
  if inputs.length ≠ nn.inputSize then
    .error "Expected inputSize inputs, got a different count"
  else
    let hidden := hiddenActs nn inputs
    let output := outputActs nn hidden
    .ok ({ nn with
            lastInputs := some inputs
            lastHidden := some hidden
            lastOutput := some output }, output)

/-- The output-error loop of `train`:
`outputErrors[o] = (targets[o] - outputs[o]) * sigmoidDerivative(outputs[o])`. -/
def outputErrorsImpl (outputSize : ℕ) (targets outputs : List ℝ) : List ℝ :=
  (List.range outputSize).map fun o =>
    (targets.getD o 0 - outputs.getD o 0) * sigmoidDerivative (outputs.getD o 0)

/-- The MSE accumulation of `train`: `mse = (Σ_o error_o²) / outputSize`. -/
def mseImpl (outputSize : ℕ) (targets outputs : List ℝ) : ℝ :=
  (∑ o ∈ Finset.range outputSize,
    (targets.getD o 0 - outputs.getD o 0) * (targets.getD o 0 - outputs.getD o 0)) /
    outputSize

/-- The hidden-error loop of `train`:
`hiddenErrors[h] = (Σ_o outputErrors[o] * weightsHO[h][o]) * sigmoidDerivative(hidden[h])`
(reading the not-yet-updated `weightsHO`). -/
def hiddenErrorsImpl (hiddenSize outputSize : ℕ) (weightsHO : List (List ℝ))
    (outputErrors hidden : List ℝ) : List ℝ :=
  (List.range hiddenSize).map fun h =>
    (∑ o ∈ Finset.range outputSize, outputErrors.getD o 0 * idx2 weightsHO h o) *
      sigmoidDerivative (hidden.getD h 0)

/-- The hidden→output weight-update loop of `train`:
`weightsHO[h][o] += lr * outputErrors[o] * hidden[h]`. -/
def updWHO (hiddenSize outputSize : ℕ) (weightsHO : List (List ℝ)) (lr : ℝ)
    (outputErrors hidden : List ℝ) : List (List ℝ) :=
  (List.range hiddenSize).map fun h => (List.range outputSize).map fun o =>
    idx2 weightsHO h o + lr * outputErrors.getD o 0 * hidden.getD h 0

/-- The output bias-update loop of `train`: `biasO[o] += lr * outputErrors[o]`. -/
def updBO (outputSize : ℕ) (biasO : List ℝ) (lr : ℝ) (outputErrors : List ℝ) : List ℝ :=
  (List.range outputSize).map fun o => biasO.getD o 0 + lr * outputErrors.getD o 0

/-- The input→hidden weight-update loop of `train`:
`weightsIH[i][h] += lr * hiddenErrors[h] * lastInputs[i]`. -/
def updWIH (inputSize hiddenSize : ℕ) (weightsIH : List (List ℝ)) (lr : ℝ)
    (hiddenErrors lastIn : List ℝ) : List (List ℝ) :=
  (List.range inputSize).map fun i => (List.range hiddenSize).map fun h =>
    idx2 weightsIH i h + lr * hiddenErrors.getD h 0 * lastIn.getD i 0

/-- The hidden bias-update loop of `train`: `biasH[h] += lr * hiddenErrors[h]`. -/
def updBH (hiddenSize : ℕ) (biasH : List ℝ) (lr : ℝ) (hiddenErrors : List ℝ) : List ℝ :=
  (List.range hiddenSize).map fun h => biasH.getD h 0 + lr * hiddenErrors.getD h 0

/-- Source `train(inputs, targets, learningRate)`: one forward pass followed by
one in-place backpropagation update; returns the updated network and the
per-sample mean squared error.  The hidden errors read `weightsHO`
before it is updated, exactly as the source does. -/
def train (nn : NeuralNetwork) (inputs targets : List ℝ) (lr : ℝ) :
    Except String (NeuralNetwork × ℝ) :=
  match forwardPass nn inputs with
  | .error e => .error e
  | .ok (nn1, outputs) =>
    let outputErrors := outputErrorsImpl nn1.outputSize targets outputs
    let mse := mseImpl nn1.outputSize targets outputs
    let hidden := nn1.lastHidden.getD []
    let lastIn := nn1.lastInputs.getD []
    let hiddenErrors :=
      hiddenErrorsImpl nn1.hiddenSize nn1.outputSize nn1.weightsHO outputErrors hidden
    .ok ({ nn1 with
            weightsIH := updWIH nn1.inputSize nn1.hiddenSize nn1.weightsIH lr hiddenErrors lastIn
            weightsHO := updWHO nn1.hiddenSize nn1.outputSize nn1.weightsHO lr outputErrors hidden
            biasH := updBH nn1.hiddenSize nn1.biasH lr hiddenErrors
            biasO := updBO nn1.outputSize nn1.biasO lr outputErrors }, mse)

/-- Source `predict(gameState)`: throws if the game state is absent, otherwise
forwards the 4-feature telemetry vector and thresholds the first output
strictly at 0.5. -/
def predict (nn : NeuralNetwork) (gameState : Option GameState) : Except String Bool :=
  match gameState with
  | none => .error "Invalid game state for prediction"
  | some gs =>
    match forwardPass nn [gs.birdY, gs.birdVelocity, gs.pipeDistance, gs.pipeGapY] with
    | .error e => .error e
    | .ok (_, output) => .ok (if output.getD 0 0 > 0.5 then true else false)

/-- Source `copy()`: builds a fresh randomly initialised network of the same
declared sizes, then overwrites every weight entry and both bias vectors
with this network's values; the fresh caches stay `null`. -/
def copy (nn : NeuralNetwork) (randIH randHO : ℕ → ℕ → ℝ) : NeuralNetwork :=
  let fresh := mkNetwork nn.inputSize nn.hiddenSize nn.outputSize randIH randHO
  { fresh with
      weightsIH := (List.range nn.inputSize).map fun i =>
        (List.range nn.hiddenSize).map fun h => idx2 nn.weightsIH i h
      weightsHO := (List.range nn.hiddenSize).map fun h =>
        (List.range nn.outputSize).map fun o => idx2 nn.weightsHO h o
      biasH := nn.biasH
      biasO := nn.biasO }

/-- The serialized parameter record `{weightsIH, weightsHO, biasH, biasO}`
produced by `toJSON` and consumed by `fromJSON`. -/
structure NetParams where
  weightsIH : List (List ℝ)
  weightsHO : List (List ℝ)
  biasH : List ℝ
  biasO : List ℝ

/-- Source `toJSON()`: exports the four parameter arrays verbatim. -/
def toJSON (nn : NeuralNetwork) : NetParams :=
  { weightsIH := nn.weightsIH
    weightsHO := nn.weightsHO
    biasH := nn.biasH
    biasO := nn.biasO }

/-- Source `fromJSON(json)`: overwrites the four parameter arrays verbatim,
with no dimension validation against the receiving model. -/
def fromJSON (nn : NeuralNetwork) (data : NetParams) : NeuralNetwork :=
  { nn with
      weightsIH := data.weightsIH
      weightsHO := data.weightsHO
      biasH := data.biasH
      biasO := data.biasO }

/-- The all-zero 4/8/1 network used by the spec's boundary test: every
weight and bias 0 (the constructor with a zero random draw). -/
def zeroNet : NeuralNetwork :=
  mkNetwork 4 8 1 (fun _ _ => 0) (fun _ _ => 0)

/-- Source `Trainer` state: the owned network, the bounded sample buffer, and
the three statistics fields. -/
structure Trainer where
  nn : NeuralNetwork
  trainingData : List Sample
  totalSamples : ℕ
  currentLoss : ℝ
  trainedEpochs : ℕ

/-- Source `maxSamples = 10000`: the buffer capacity. -/
def maxSamples : ℕ := 10000

/-- Source `batchSize = 32`: the chunk size and minimum buffer length. -/
def batchSize : ℕ := 32

/-- Source `addSample(gameState, optimalAction)`: throws on an absent game
state; otherwise appends the 4-feature sample and, if the length now
exceeds `maxSamples`, shifts off the element at index 0; finally
refreshes `totalSamples`. -/
def addSample (t : Trainer) (gameState : Option GameState) (optimalAction : ℝ) :
    Except String Trainer :=
  match gameState with
  | none => .error "Invalid game state for adding sample"
  | some gs =>
    let sample : Sample :=
      { inputs := [gs.birdY, gs.birdVelocity, gs.pipeDistance, gs.pipeGapY]
        target := [optimalAction] }
    let pushed := t.trainingData ++ [sample]
    let data := if pushed.length > maxSamples then pushed.tail else pushed
    .ok { t with trainingData := data, totalSamples := data.length }

/-- Source `reset()`: clears the buffer and zeroes the statistics. -/
def Trainer.reset (t : Trainer) : Trainer :=
  { t with trainingData := [], totalSamples := 0, currentLoss := 0, trainedEpochs := 0 }

/-- The swap `[array[i], array[j]] = [array[j], array[i]]` on a list;
out-of-range indices leave the list unchanged (they never occur in the
shuffle loop). -/
def listSwap {α : Type} (l : List α) (i j : ℕ) : List α :=
  match l[i]?, l[j]? with
  | some a, some b => (l.set i b).set j a
  | _, _ => l

/-- The Fisher-Yates loop of `shuffle`: for `i` from `n-1` down to `1`,
swap index `i` with `j = rand i % (i+1)` — the model of
`Math.floor(Math.random() * (i + 1))`, always in `[0, i]`. -/
def shuffleGo {α : Type} (rand : ℕ → ℕ) : ℕ → List α → List α
  | 0, l => l
  | i + 1, l => shuffleGo rand i (listSwap l (i + 1) (rand (i + 1) % (i + 2)))

/-- Source `shuffle(array)` (Fisher-Yates) with the ambient randomness passed
in as an explicit stream. -/
def shuffle {α : Type} (l : List α) (rand : ℕ → ℕ) : List α :=
  shuffleGo rand (l.length - 1) l

/-- The batch slicing `shuffled.slice(i, i + batchSize)` for
`i = 0, batchSize, 2*batchSize, ...`: contiguous chunks of `batchSize`,
the last one possibly smaller.  Structured as fuel recursion on the
list length (each step drops `batchSize ≥ 1` elements, so `length`
fuel always suffices). -/
def chunksGo {α : Type} : ℕ → List α → List (List α)
  | 0, _ => []
  | _, [] => []
  | fuel + 1, l => l.take batchSize :: chunksGo fuel (l.drop batchSize)

/-- The list of batches a single epoch iterates over. -/
def chunks {α : Type} (l : List α) : List (List α) :=
  chunksGo l.length l

/-- The inner `for (const sample of batch)` loop: train on each sample
in order, accumulating total loss and the trained-sample count;  a
thrown dimension mismatch propagates. -/
def trainSamples (nn : NeuralNetwork) (lr : ℝ) :
    List Sample → ℝ → ℕ → Except String (NeuralNetwork × ℝ × ℕ)
  | [], totalLoss, samplesTrained => .ok (nn, totalLoss, samplesTrained)
  | s :: rest, totalLoss, samplesTrained =>
    match train nn s.inputs s.target lr with
    | .error e => .error e
    | .ok (nn1, loss) => trainSamples nn1 lr rest (totalLoss + loss) (samplesTrained + 1)

/-- The middle `for (let i = 0; i < shuffled.length; i += batchSize)`
loop: process each batch in order. -/
def trainChunks (nn : NeuralNetwork) (lr : ℝ) :
    List (List Sample) → ℝ → ℕ → Except String (NeuralNetwork × ℝ × ℕ)
  | [], totalLoss, samplesTrained => .ok (nn, totalLoss, samplesTrained)
  | c :: rest, totalLoss, samplesTrained =>
    match trainSamples nn lr c totalLoss samplesTrained with
    | .error e => .error e
    | .ok (nn1, tl1, st1) => trainChunks nn1 lr rest tl1 st1

/-- The outer epoch loop of `Trainer.train`: each epoch shuffles a fresh
copy of the (unchanged) buffer with its own randomness slice and
processes it batch by batch. -/
def runEpochsLoop (lr : ℝ) (rand : ℕ → ℕ → ℕ) (data : List Sample) :
    ℕ → ℕ → NeuralNetwork → ℝ → ℕ → Except String (NeuralNetwork × ℝ × ℕ)
  | _, 0, nn, totalLoss, samplesTrained => .ok (nn, totalLoss, samplesTrained)
  | epoch, remaining + 1, nn, totalLoss, samplesTrained =>
    match trainChunks nn lr (chunks (shuffle data (rand epoch))) totalLoss samplesTrained with
    | .error e => .error e
    | .ok (nn1, tl1, st1) => runEpochsLoop lr rand data (epoch + 1) remaining nn1 tl1 st1

/-- Source `Trainer.train(learningRate, epochs)`: a soft no-op returning 0 when
the buffer holds fewer than `batchSize` samples; otherwise runs the
epoch loop, sets `currentLoss = totalLoss / samplesTrained`, adds
`epochs` to `trainedEpochs`, and returns the new loss. -/
def Trainer.train (t : Trainer) (lr : ℝ) (epochs : ℕ) (rand : ℕ → ℕ → ℕ) :
    Except String (Trainer × ℝ) :=
  if t.trainingData.length < batchSize then
    .ok (t, 0)
  else
    match runEpochsLoop lr rand t.trainingData 0 epochs t.nn 0 0 with
    | .error e => .error e
    | .ok (nn1, totalLoss, samplesTrained) =>
      let currentLoss := totalLoss / (samplesTrained : ℝ)
      .ok ({ t with
              nn := nn1
              currentLoss := currentLoss
              trainedEpochs := t.trainedEpochs + epochs }, currentLoss)

/-- A concrete empty trainer over the zero network (for witnesses). -/
def emptyTrainer : Trainer :=
  { nn := zeroNet, trainingData := [], totalSamples := 0, currentLoss := 0, trainedEpochs := 0 }

/-- The sample `addSample` builds from a game state and a label. -/
def sampleOf (gs : GameState) (a : ℝ) : Sample :=
  { inputs := [gs.birdY, gs.birdVelocity, gs.pipeDistance, gs.pipeGapY], target := [a] }

/-- A concrete all-zero sample with target 1. -/
def sample0 : Sample :=
  { inputs := [0, 0, 0, 0], target := [1] }

/-- A concrete trainer whose buffer holds exactly `batchSize` samples. -/
def t32 : Trainer :=
  { nn := zeroNet, trainingData := List.replicate 32 sample0, totalSamples := 32,
    currentLoss := 0, trainedEpochs := 0 }

/-- Everything claim C3 asserts about the buffer: `addSample` keeps the
length within capacity and evicts exactly the head (preserving order)
iff the buffer was full, `reset` clears, a successful training run never
touches the buffer, and an absent game state is an error. -/
def BufferPost (t : Trainer) (gs : GameState) (a : ℝ) : Prop :=
  (∃ t1, addSample t (some gs) a = .ok t1 ∧
    t1.trainingData.length ≤ maxSamples ∧
    t1.trainingData =
      (if t.trainingData.length = maxSamples then t.trainingData.tail else t.trainingData) ++
        [sampleOf gs a] ∧
    t1.totalSamples = t1.trainingData.length) ∧
  (Trainer.reset t).trainingData = [] ∧
  (∀ lr epochs rand t1 r, Trainer.train t lr epochs rand = .ok (t1, r) →
    t1.trainingData = t.trainingData) ∧
  addSample t none a = .error "Invalid game state for adding sample"

/-- Everything claim C4 asserts about `Trainer.train`: the soft no-op
below `batchSize`, each epoch a permutation of the buffer, chunking as
pure scheduling, and — on a big-enough buffer — success with exactly
`epochs * bufferLength` samples processed, the statistics update, and
the untouched buffer. -/
def RunEpochsPost (t : Trainer) (lr : ℝ) (epochs : ℕ) (rand : ℕ → ℕ → ℕ) : Prop :=
  (t.trainingData.length < batchSize → Trainer.train t lr epochs rand = .ok (t, 0)) ∧
  (∀ e, (shuffle t.trainingData (rand e)).Perm t.trainingData) ∧
  (∀ (nn : NeuralNetwork) (l : List Sample) (tl : ℝ) (st : ℕ),
    trainChunks nn lr (chunks l) tl st = trainSamples nn lr l tl st) ∧
  (batchSize ≤ t.trainingData.length →
    ∃ nn1 totalLoss,
      runEpochsLoop lr rand t.trainingData 0 epochs t.nn 0 0 =
        .ok (nn1, totalLoss, epochs * t.trainingData.length) ∧
      Trainer.train t lr epochs rand = .ok
        ({ t with
            nn := nn1
            currentLoss := totalLoss / ((epochs * t.trainingData.length : ℕ) : ℝ)
            trainedEpochs := t.trainedEpochs + epochs },
          totalLoss / ((epochs * t.trainingData.length : ℕ) : ℝ)))

/-- Everything claim C10 asserts about the `totalLoss / samplesTrained`
division: the divisor is `epochs * bufferLength`, positive whenever
`epochs ≥ 1`, and literally zero (a 0/0 division) when `epochs = 0`. -/
def LossDivisorPost (t : Trainer) (lr : ℝ) (epochs : ℕ) (rand : ℕ → ℕ → ℕ) : Prop :=
  ∃ t1 totalLoss,
    Trainer.train t lr epochs rand =
      .ok (t1, totalLoss / ((epochs * t.trainingData.length : ℕ) : ℝ)) ∧
    t1.currentLoss = totalLoss / ((epochs * t.trainingData.length : ℕ) : ℝ) ∧
    (1 ≤ epochs → (0 : ℝ) < ((epochs * t.trainingData.length : ℕ) : ℝ)) ∧
    (epochs = 0 → ((epochs * t.trainingData.length : ℕ) : ℝ) = 0 ∧ totalLoss = 0 ∧
      t1.currentLoss = totalLoss / (0 : ℝ))

/-- Spec-side formula (claim C1), hidden activation:
`hidden_h = sigmoid(biasH[h] + Σ_i input_i * weightsIH[i][h])`. -/
def specHid (nn : NeuralNetwork) (inputs : List ℝ) (h : ℕ) : ℝ :=
  sigmoid (nn.biasH.getD h 0 +
    ∑ i ∈ Finset.range nn.inputSize, inputs.getD i 0 * idx2 nn.weightsIH i h)

/-- Spec-side formula (claim C1), output activation:
`output_o = sigmoid(biasO[o] + Σ_h hidden_h * weightsHO[h][o])`. -/
def specOut (nn : NeuralNetwork) (inputs : List ℝ) (o : ℕ) : ℝ :=
  sigmoid (nn.biasO.getD o 0 +
    ∑ h ∈ Finset.range nn.hiddenSize, specHid nn inputs h * idx2 nn.weightsHO h o)

/-- Spec-side formula (claim C1), output error:
`outputError_o = (target_o - output_o) * output_o * (1 - output_o)`. -/
def specOutputError (nn : NeuralNetwork) (inputs targets : List ℝ) (o : ℕ) : ℝ :=
  (targets.getD o 0 - specOut nn inputs o) * specOut nn inputs o * (1 - specOut nn inputs o)

/-- Spec-side formula (claim C1), hidden error computed with the
pre-update `weightsHO`:
`hiddenError_h = (Σ_o outputError_o * weightsHO[h][o]) * hidden_h * (1 - hidden_h)`. -/
def specHiddenError (nn : NeuralNetwork) (inputs targets : List ℝ) (h : ℕ) : ℝ :=
  (∑ o ∈ Finset.range nn.outputSize,
    specOutputError nn inputs targets o * idx2 nn.weightsHO h o) *
    specHid nn inputs h * (1 - specHid nn inputs h)

/-- Everything claim C1 asserts about one `train` step, phrased against
the spec-side formulas over the PRE-state: the four in-place parameter
updates scaled by the learning rate, and the returned mean squared
error. -/
def TrainPost (nn : NeuralNetwork) (inputs targets : List ℝ) (lr : ℝ) : Prop :=
  ∃ nn1 r, train nn inputs targets lr = .ok (nn1, r) ∧
    (∀ h < nn.hiddenSize, ∀ o < nn.outputSize,
      idx2 nn1.weightsHO h o =
        idx2 nn.weightsHO h o + lr * specOutputError nn inputs targets o * specHid nn inputs h) ∧
    (∀ o < nn.outputSize,
      nn1.biasO.getD o 0 = nn.biasO.getD o 0 + lr * specOutputError nn inputs targets o) ∧
    (∀ i < nn.inputSize, ∀ h < nn.hiddenSize,
      idx2 nn1.weightsIH i h =
        idx2 nn.weightsIH i h + lr * specHiddenError nn inputs targets h * inputs.getD i 0) ∧
    (∀ h < nn.hiddenSize,
      nn1.biasH.getD h 0 = nn.biasH.getD h 0 + lr * specHiddenError nn inputs targets h) ∧
    r = (∑ o ∈ Finset.range nn.outputSize,
      (targets.getD o 0 - specOut nn inputs o) ^ 2) / nn.outputSize ∧
    0 ≤ r

/-- Everything claim C2 asserts about one successful forward pass: the
explicit formulas for the output and the refreshed caches, the cache
invariant re-read from the post-state, and the clamp inside `sigmoid`. -/
def ForwardPost (nn : NeuralNetwork) (inputs : List ℝ) : Prop :=
  ∃ nn1 out, forwardPass nn inputs = .ok (nn1, out) ∧
    out = ((List.range nn.outputSize).map fun o =>
      sigmoid (nn.biasO.getD o 0 + ∑ h ∈ Finset.range nn.hiddenSize,
        sigmoid (nn.biasH.getD h 0 + ∑ i ∈ Finset.range nn.inputSize,
          inputs.getD i 0 * idx2 nn.weightsIH i h) * idx2 nn.weightsHO h o)) ∧
    nn1.lastInputs = some inputs ∧
    nn1.lastHidden = some ((List.range nn.hiddenSize).map fun h =>
      sigmoid (nn.biasH.getD h 0 + ∑ i ∈ Finset.range nn.inputSize,
        inputs.getD i 0 * idx2 nn.weightsIH i h)) ∧
    nn1.lastOutput = some out ∧
    (∀ h < nn1.hiddenSize, (nn1.lastHidden.getD []).getD h 0 =
      sigmoid (nn1.biasH.getD h 0 + ∑ i ∈ Finset.range nn1.inputSize,
        (nn1.lastInputs.getD []).getD i 0 * idx2 nn1.weightsIH i h)) ∧
    (∀ o < nn1.outputSize, (nn1.lastOutput.getD []).getD o 0 =
      sigmoid (nn1.biasO.getD o 0 + ∑ h ∈ Finset.range nn1.hiddenSize,
        (nn1.lastHidden.getD []).getD h 0 * idx2 nn1.weightsHO h o)) ∧
    (∀ x, sigmoid x = sigmoid (max (-500) (min 500 x)))

/-! ### Basic lemmas about the list operations used by the embedding -/

lemma getD_range_map {α : Type} {n k : ℕ} (f : ℕ → α) (d : α) (hk : k < n) :
    ((List.range n).map f).getD k d = f k := by
  rw [List.getD_eq_getElem?_getD, List.getElem?_map, List.getElem?_range hk]
  rfl

lemma getD_of_all_eq {α : Type} :
    ∀ (l : List α) (d : α), (∀ x ∈ l, x = d) → ∀ i, l.getD i d = d
  | [], _, _, _ => rfl
  | x :: _, _, h, 0 => h x (by simp)
  | _ :: xs, d, h, i + 1 => getD_of_all_eq xs d (fun y hy => h y (by simp [hy])) i

/-- Under well-formed dimensions, rebuilding a matrix entry by entry over
the declared index ranges reproduces it exactly (this is why the source's
in-place entry-by-entry loops are modelled as range rebuilds). -/
lemma rebuild_matrix {m : List (List ℝ)} {r c : ℕ} (h1 : m.length = r)
    (h2 : ∀ row ∈ m, row.length = c) :
    (List.range r).map (fun i => (List.range c).map fun j => idx2 m i j) = m := by
  apply List.ext_getElem (by simp [h1])
  intro n hn hn'
  rw [List.getElem_map, List.getElem_range]
  apply List.ext_getElem
  · simp [h2 _ (List.getElem_mem hn')]
  intro k hk hk'
  rw [List.getElem_map, List.getElem_range]
  have hrow : m.getD n [] = m[n] := List.getD_eq_getElem m [] hn'
  rw [idx2, hrow, List.getD_eq_getElem _ _ hk']

/-! ### Lemmas about `sigmoid` and the forward pass -/

lemma sigmoid_pos (x : ℝ) : 0 < sigmoid x := by
  unfold sigmoid
  positivity

lemma sigmoid_lt_one (x : ℝ) : sigmoid x < 1 := by
  unfold sigmoid
  rw [div_lt_one (by positivity)]
  have := Real.exp_pos (-(max (-500) (min 500 x)))
  linarith

lemma sigmoid_zero : sigmoid 0 = 1 / 2 := by
  have h1 : min (500 : ℝ) 0 = 0 := by norm_num
  have h2 : max (-500 : ℝ) 0 = 0 := by norm_num
  rw [sigmoid, h1, h2, neg_zero, Real.exp_zero]
  norm_num

/-- The clamp inside `sigmoid` is idempotent: feeding the already-clamped
pre-activation back in changes nothing. -/
lemma sigmoid_clamp (x : ℝ) : sigmoid (max (-500) (min 500 x)) = sigmoid x := by
  have hlo : (-500 : ℝ) ≤ max (-500) (min 500 x) := le_max_left _ _
  have hhi : max (-500 : ℝ) (min 500 x) ≤ 500 :=
    max_le (by norm_num) (min_le_left _ _)
  rw [sigmoid, min_eq_right hhi, max_eq_right hlo]
  rfl

lemma forwardPass_eq_ok (nn : NeuralNetwork) (inputs : List ℝ)
    (hlen : inputs.length = nn.inputSize) :
    forwardPass nn inputs = .ok
      ({ nn with
          lastInputs := some inputs
          lastHidden := some (hiddenActs nn inputs)
          lastOutput := some (forwardOutput nn inputs) }, forwardOutput nn inputs) := by
  rw [forwardPass, if_neg (by simp [hlen])]
  rfl

lemma hiddenActs_getD (nn : NeuralNetwork) (inputs : List ℝ) {h : ℕ}
    (hh : h < nn.hiddenSize) :
    (hiddenActs nn inputs).getD h 0 = sigmoid (hiddenPre nn inputs h) :=
  getD_range_map _ _ hh

lemma forwardOutput_getD (nn : NeuralNetwork) (inputs : List ℝ) {o : ℕ}
    (ho : o < nn.outputSize) :
    (forwardOutput nn inputs).getD o 0 = sigmoid (outputPre nn (hiddenActs nn inputs) o) :=
  getD_range_map _ _ ho

/-- The forward output written as one closed formula in the parameters. -/
lemma forwardOutput_formula (nn : NeuralNetwork) (inputs : List ℝ) :
    forwardOutput nn inputs = (List.range nn.outputSize).map fun o =>
      sigmoid (nn.biasO.getD o 0 + ∑ h ∈ Finset.range nn.hiddenSize,
        sigmoid (nn.biasH.getD h 0 + ∑ i ∈ Finset.range nn.inputSize,
          inputs.getD i 0 * idx2 nn.weightsIH i h) * idx2 nn.weightsHO h o) := by
  unfold forwardOutput outputActs
  apply List.map_congr_left
  intro o _
  congr 1
  unfold outputPre
  congr 1
  apply Finset.sum_congr rfl
  intro h hh
  rw [hiddenActs_getD nn inputs (Finset.mem_range.mp hh)]
  rfl

/-- The forward output only reads the sizes and the four parameter
arrays: two networks that agree on those produce equal outputs. -/
lemma forwardOutput_congr {a b : NeuralNetwork}
    (his : a.inputSize = b.inputSize) (hhs : a.hiddenSize = b.hiddenSize)
    (hos : a.outputSize = b.outputSize)
    (hwih : a.weightsIH = b.weightsIH) (hwho : a.weightsHO = b.weightsHO)
    (hbh : a.biasH = b.biasH) (hbo : a.biasO = b.biasO) (inputs : List ℝ) :
    forwardOutput a inputs = forwardOutput b inputs := by
  rw [forwardOutput_formula, forwardOutput_formula, his, hhs, hos, hwih, hwho, hbh, hbo]

lemma zeroNet_sizes : zeroNet.inputSize = 4 ∧ zeroNet.hiddenSize = 8 ∧ zeroNet.outputSize = 1 :=
  ⟨rfl, rfl, rfl⟩

lemma zeroNet_wf : WF zeroNet := by
  refine ⟨by simp [zeroNet, mkNetwork, initializeWeights], ?_,
    by simp [zeroNet, mkNetwork, initializeWeights], ?_,
    by simp [zeroNet, mkNetwork], by simp [zeroNet, mkNetwork]⟩ <;>
  · intro row hrow
    simp only [zeroNet, mkNetwork, initializeWeights, List.mem_map] at hrow
    obtain ⟨i, _, rfl⟩ := hrow
    simp [zeroNet, mkNetwork]

lemma idx2_zero (r c i j : ℕ) :
    idx2 (initializeWeights r c fun _ _ => 0) i j = 0 := by
  rw [idx2]
  have hrow : ∀ row ∈ initializeWeights r c (fun _ _ => (0 : ℝ)), ∀ x ∈ row, x = (0 : ℝ) := by
    intro row hrow x hx
    simp only [initializeWeights, List.mem_map] at hrow
    obtain ⟨k, _, rfl⟩ := hrow
    simp only [List.mem_map] at hx
    obtain ⟨m, _, rfl⟩ := hx
    rfl
  rcases h : (initializeWeights r c fun _ _ => (0 : ℝ)).getD i [] with _ | ⟨y, ys⟩
  · rfl
  · rcases Nat.lt_or_ge i (initializeWeights r c fun _ _ => (0 : ℝ)).length with hi | hi
    · have hmem : (initializeWeights r c fun _ _ => (0 : ℝ)).getD i [] ∈
          initializeWeights r c (fun _ _ => (0 : ℝ)) := by
        rw [List.getD_eq_getElem _ _ hi]
        exact List.getElem_mem hi
      rw [h] at hmem
      exact getD_of_all_eq _ _ (hrow _ hmem) j
    · rw [List.getD_eq_getElem?_getD, List.getElem?_eq_none (by simpa using hi)] at h
      cases h

/-- Push-then-evict always leaves the freshly pushed element at the back
of the buffer. -/
lemma getLast?_push_evict {α : Type} (l : List α) (s : α) (cap : ℕ) (hcap : 0 < cap) :
    (if (l ++ [s]).length > cap then (l ++ [s]).tail else (l ++ [s])).getLast? = some s := by
  by_cases h : (l ++ [s]).length > cap
  · rw [if_pos h]
    cases l with
    | nil =>
      simp at h
      omega
    | cons d ds => simp [List.getLast?_concat]
  · rw [if_neg h]
    simp [List.getLast?_concat]

/-! ### Concrete evaluation at the all-zero 4/8/1 network -/

lemma zeroList_getD (i : ℕ) : ([0, 0, 0, 0] : List ℝ).getD i 0 = 0 := by
  apply getD_of_all_eq
  intro x hx
  simp at hx
  exact hx

lemma zeroNet_hiddenPre (h : ℕ) : hiddenPre zeroNet [0, 0, 0, 0] h = 0 := by
  have hb : zeroNet.biasH.getD h 0 = 0 := by
    apply getD_of_all_eq
    intro x hx
    simp [zeroNet, mkNetwork] at hx
    exact hx
  rw [hiddenPre, hb]
  have hterm : ∀ i ∈ Finset.range zeroNet.inputSize,
      ([0, 0, 0, 0] : List ℝ).getD i 0 * idx2 zeroNet.weightsIH i h = 0 := by
    intro i _
    rw [zeroList_getD, zero_mul]
  rw [Finset.sum_congr rfl hterm, Finset.sum_const_zero, add_zero]

lemma zeroNet_hidden : hiddenActs zeroNet [0, 0, 0, 0] = List.replicate 8 (1 / 2) := by
  rw [List.eq_replicate_iff]
  refine ⟨by simp [hiddenActs]; rfl, ?_⟩
  intro b hb
  simp only [hiddenActs, List.mem_map] at hb
  obtain ⟨h, _, rfl⟩ := hb
  rw [zeroNet_hiddenPre, sigmoid_zero]

lemma zeroNet_outputPre (hid : List ℝ) (o : ℕ) : outputPre zeroNet hid o = 0 := by
  have hb : zeroNet.biasO.getD o 0 = 0 := by
    apply getD_of_all_eq
    intro x hx
    simp [zeroNet, mkNetwork] at hx
    exact hx
  rw [outputPre, hb]
  have hterm : ∀ h ∈ Finset.range zeroNet.hiddenSize,
      hid.getD h 0 * idx2 zeroNet.weightsHO h o = 0 := by
    intro h _
    have hrw : zeroNet.weightsHO = initializeWeights 8 1 fun _ _ => 0 := rfl
    rw [hrw, idx2_zero, mul_zero]
  rw [Finset.sum_congr rfl hterm, Finset.sum_const_zero, add_zero]

lemma zeroNet_output : forwardOutput zeroNet [0, 0, 0, 0] = [1 / 2] := by
  have hsz : zeroNet.outputSize = 1 := rfl
  have h1 : List.range 1 = [0] := rfl
  rw [forwardOutput, outputActs, hsz, h1, List.map_cons, List.map_nil,
    zeroNet_outputPre, sigmoid_zero]

/-- Claim C2: for an input of the declared length, `forwardPass` computes
`h_j = sigmoid(biasH[j] + Σ_i input_i * weightsIH[i][j])` and
`y_o = sigmoid(biasO[o] + Σ_j h_j * weightsHO[j][o])` with the
pre-activation clamped to [-500, 500] inside `sigmoid`, and overwrites
the three caches with exactly `x`, `h`, `y`, so the cache invariant
holds of the post-state. -/
theorem forward_spec (nn : NeuralNetwork) (inputs : List ℝ)
    (hlen : inputs.length = nn.inputSize) : ForwardPost nn inputs := by
  refine ⟨_, _, forwardPass_eq_ok nn inputs hlen,
    forwardOutput_formula nn inputs, rfl, rfl, rfl, ?_, ?_,
    fun x => (sigmoid_clamp x).symm⟩
  · intro h hh
    exact hiddenActs_getD nn inputs hh
  · intro o ho
    exact forwardOutput_getD nn inputs ho

/-- Claim C2 witness: the forward-pass specification applied to the
concrete zero network on the concrete input `[0, 0, 0, 0]`. -/
theorem forward_spec_witness :
    ([0, 0, 0, 0] : List ℝ).length = zeroNet.inputSize ∧ ForwardPost zeroNet [0, 0, 0, 0] :=
  ⟨rfl, forward_spec zeroNet [0, 0, 0, 0] rfl⟩

/-- Claim C5: for an input of the declared length the forward pass
succeeds, its output has length exactly `outputSize`, and every output
element lies strictly between 0 and 1. -/
theorem forward_output_bounds (nn : NeuralNetwork) (inputs : List ℝ)
    (hlen : inputs.length = nn.inputSize) :
    ∃ nn1, forwardPass nn inputs = .ok (nn1, forwardOutput nn inputs) ∧
      (forwardOutput nn inputs).length = nn.outputSize ∧
      ∀ y ∈ forwardOutput nn inputs, 0 < y ∧ y < 1 := by
  refine ⟨_, forwardPass_eq_ok nn inputs hlen, by simp [forwardOutput, outputActs], ?_⟩
  intro y hy
  simp only [forwardOutput, outputActs, List.mem_map] at hy
  obtain ⟨o, _, rfl⟩ := hy
  exact ⟨sigmoid_pos _, sigmoid_lt_one _⟩

/-- Claim C5 witness: output length and strict (0, 1) bounds at the
concrete zero network on `[0, 0, 0, 0]`. -/
theorem forward_output_bounds_witness :
    ([0, 0, 0, 0] : List ℝ).length = zeroNet.inputSize ∧
      ∃ nn1, forwardPass zeroNet [0, 0, 0, 0] = .ok (nn1, forwardOutput zeroNet [0, 0, 0, 0]) ∧
        (forwardOutput zeroNet [0, 0, 0, 0]).length = zeroNet.outputSize ∧
        ∀ y ∈ forwardOutput zeroNet [0, 0, 0, 0], 0 < y ∧ y < 1 :=
  ⟨rfl, forward_output_bounds zeroNet [0, 0, 0, 0] rfl⟩

/-- Claim C9: a successful forward pass leaves the three declared sizes
and the four parameter arrays unchanged; the only fields it replaces are
the three cached-activation fields. -/
theorem forward_frame (nn : NeuralNetwork) (inputs : List ℝ)
    (hlen : inputs.length = nn.inputSize) :
    ∃ nn1 out, forwardPass nn inputs = .ok (nn1, out) ∧
      nn1.inputSize = nn.inputSize ∧ nn1.hiddenSize = nn.hiddenSize ∧
      nn1.outputSize = nn.outputSize ∧
      nn1.weightsIH = nn.weightsIH ∧ nn1.weightsHO = nn.weightsHO ∧
      nn1.biasH = nn.biasH ∧ nn1.biasO = nn.biasO ∧
      nn1.lastInputs = some inputs ∧ nn1.lastHidden = some (hiddenActs nn inputs) ∧
      nn1.lastOutput = some (forwardOutput nn inputs) :=
  ⟨_, _, forwardPass_eq_ok nn inputs hlen,
    rfl, rfl, rfl, rfl, rfl, rfl, rfl, rfl, rfl, rfl⟩

/-- Claim C9 witness: the frame property at the concrete zero network
on `[0, 0, 0, 0]`. -/
theorem forward_frame_witness :
    ([0, 0, 0, 0] : List ℝ).length = zeroNet.inputSize ∧
      ∃ nn1 out, forwardPass zeroNet [0, 0, 0, 0] = .ok (nn1, out) ∧
        nn1.inputSize = zeroNet.inputSize ∧ nn1.hiddenSize = zeroNet.hiddenSize ∧
        nn1.outputSize = zeroNet.outputSize ∧
        nn1.weightsIH = zeroNet.weightsIH ∧ nn1.weightsHO = zeroNet.weightsHO ∧
        nn1.biasH = zeroNet.biasH ∧ nn1.biasO = zeroNet.biasO ∧
        nn1.lastInputs = some [0, 0, 0, 0] ∧
        nn1.lastHidden = some (hiddenActs zeroNet [0, 0, 0, 0]) ∧
        nn1.lastOutput = some (forwardOutput zeroNet [0, 0, 0, 0]) :=
  ⟨rfl, forward_frame zeroNet [0, 0, 0, 0] rfl⟩

/-- Claim C6: `predict` fails on an absent game state; otherwise it
builds the same 4-feature vector `addSample` stores, forwards it, and
thresholds `output[0]` strictly at 0.5; on the all-zero 4/8/1 network
the input `[0, 0, 0, 0]` gives hidden activations all `1/2`, output
exactly `[1/2]`, and a `false` decision. -/
theorem predict_spec :
    (∀ nn, predict nn none = .error "Invalid game state for prediction") ∧
    (∀ nn gs, predict nn (some gs) =
      Except.map (fun p => if p.2.getD 0 0 > 0.5 then true else false)
        (forwardPass nn [gs.birdY, gs.birdVelocity, gs.pipeDistance, gs.pipeGapY])) ∧
    (∀ t gs a, ∃ t1, addSample t (some gs) a = .ok t1 ∧
      t1.trainingData.getLast? = some
        { inputs := [gs.birdY, gs.birdVelocity, gs.pipeDistance, gs.pipeGapY]
          target := [a] }) ∧
    (∃ nn1, forwardPass zeroNet [0, 0, 0, 0] = .ok (nn1, [1 / 2]) ∧
      nn1.lastHidden = some (List.replicate 8 (1 / 2))) ∧
    predict zeroNet
      (some { birdY := 0, birdVelocity := 0, pipeDistance := 0, pipeGapY := 0 }) = .ok false := by
  refine ⟨fun nn => rfl, ?_, ?_, ?_, ?_⟩
  · intro nn gs
    cases hfp : forwardPass nn [gs.birdY, gs.birdVelocity, gs.pipeDistance, gs.pipeGapY] with
    | error e => simp [predict, hfp, Except.map]
    | ok p => simp [predict, hfp, Except.map]
  · intro t gs a
    exact ⟨_, rfl, getLast?_push_evict t.trainingData _ maxSamples (by norm_num [maxSamples])⟩
  · refine ⟨{ zeroNet with
        lastInputs := some [0, 0, 0, 0]
        lastHidden := some (hiddenActs zeroNet [0, 0, 0, 0])
        lastOutput := some (forwardOutput zeroNet [0, 0, 0, 0]) }, ?_, ?_⟩
    · rw [forwardPass_eq_ok zeroNet [0, 0, 0, 0] rfl, zeroNet_output]
    · rw [zeroNet_hidden]
  · have hfp := forwardPass_eq_ok zeroNet [0, 0, 0, 0] rfl
    rw [zeroNet_output] at hfp
    have hlt : ¬ (([1 / 2] : List ℝ).getD 0 0 > 0.5) := by norm_num
    simp [predict, hfp, hlt]
    norm_num

/-- Claim C7: export then import round-trips all four parameter arrays
exactly, and import overwrites them verbatim for an arbitrary payload,
with no dimension validation against the receiving model (whose declared
sizes are untouched). -/
theorem json_roundtrip :
    (∀ m nn : NeuralNetwork,
      (fromJSON m (toJSON nn)).weightsIH = nn.weightsIH ∧
      (fromJSON m (toJSON nn)).weightsHO = nn.weightsHO ∧
      (fromJSON m (toJSON nn)).biasH = nn.biasH ∧
      (fromJSON m (toJSON nn)).biasO = nn.biasO) ∧
    (∀ (m : NeuralNetwork) (data : NetParams),
      (fromJSON m data).weightsIH = data.weightsIH ∧
      (fromJSON m data).weightsHO = data.weightsHO ∧
      (fromJSON m data).biasH = data.biasH ∧
      (fromJSON m data).biasO = data.biasO ∧
      (fromJSON m data).inputSize = m.inputSize ∧
      (fromJSON m data).hiddenSize = m.hiddenSize ∧
      (fromJSON m data).outputSize = m.outputSize) :=
  ⟨fun _ _ => ⟨rfl, rfl, rfl, rfl⟩, fun _ _ => ⟨rfl, rfl, rfl, rfl, rfl, rfl, rfl⟩⟩

/-- Claim C8: for a well-formed network, `copy` yields a network with
the same declared sizes, parameter arrays equal to the source's (so its
forward output matches the source's on every input), and no copied
cached activations. -/
theorem clone_spec (nn : NeuralNetwork) (randIH randHO : ℕ → ℕ → ℝ) (hwf : WF nn) :
    (copy nn randIH randHO).inputSize = nn.inputSize ∧
    (copy nn randIH randHO).hiddenSize = nn.hiddenSize ∧
    (copy nn randIH randHO).outputSize = nn.outputSize ∧
    (copy nn randIH randHO).weightsIH = nn.weightsIH ∧
    (copy nn randIH randHO).weightsHO = nn.weightsHO ∧
    (copy nn randIH randHO).biasH = nn.biasH ∧
    (copy nn randIH randHO).biasO = nn.biasO ∧
    (copy nn randIH randHO).lastInputs = none ∧
    (copy nn randIH randHO).lastHidden = none ∧
    (copy nn randIH randHO).lastOutput = none ∧
    ∀ inputs, forwardOutput (copy nn randIH randHO) inputs = forwardOutput nn inputs := by
  obtain ⟨h1, h2, h3, h4, _, _⟩ := hwf
  have hIH : (copy nn randIH randHO).weightsIH = nn.weightsIH := by
    have e : (copy nn randIH randHO).weightsIH =
        (List.range nn.inputSize).map fun i =>
          (List.range nn.hiddenSize).map fun h => idx2 nn.weightsIH i h := by
      simp only [copy]
    rw [e, rebuild_matrix h1 h2]
  have hHO : (copy nn randIH randHO).weightsHO = nn.weightsHO := by
    have e : (copy nn randIH randHO).weightsHO =
        (List.range nn.hiddenSize).map fun h =>
          (List.range nn.outputSize).map fun o => idx2 nn.weightsHO h o := by
      simp only [copy]
    rw [e, rebuild_matrix h3 h4]
  have hsz1 : (copy nn randIH randHO).inputSize = nn.inputSize := by
    simp only [copy, mkNetwork]
  have hsz2 : (copy nn randIH randHO).hiddenSize = nn.hiddenSize := by
    simp only [copy, mkNetwork]
  have hsz3 : (copy nn randIH randHO).outputSize = nn.outputSize := by
    simp only [copy, mkNetwork]
  have hbh : (copy nn randIH randHO).biasH = nn.biasH := by
    simp only [copy]
  have hbo : (copy nn randIH randHO).biasO = nn.biasO := by
    simp only [copy]
  refine ⟨hsz1, hsz2, hsz3, hIH, hHO, hbh, hbo, by simp only [copy, mkNetwork],
    by simp only [copy, mkNetwork], by simp only [copy, mkNetwork], ?_⟩
  intro inputs
  exact forwardOutput_congr hsz1 hsz2 hsz3 hIH hHO hbh hbo inputs

/-- Claim C8 witness: the clone specification applied to the concrete
zero network with a concrete (constant) random generator. -/
theorem clone_spec_witness :
    WF zeroNet ∧
    ((copy zeroNet (fun _ _ => 1) (fun _ _ => 1)).inputSize = zeroNet.inputSize ∧
     (copy zeroNet (fun _ _ => 1) (fun _ _ => 1)).hiddenSize = zeroNet.hiddenSize ∧
     (copy zeroNet (fun _ _ => 1) (fun _ _ => 1)).outputSize = zeroNet.outputSize ∧
     (copy zeroNet (fun _ _ => 1) (fun _ _ => 1)).weightsIH = zeroNet.weightsIH ∧
     (copy zeroNet (fun _ _ => 1) (fun _ _ => 1)).weightsHO = zeroNet.weightsHO ∧
     (copy zeroNet (fun _ _ => 1) (fun _ _ => 1)).biasH = zeroNet.biasH ∧
     (copy zeroNet (fun _ _ => 1) (fun _ _ => 1)).biasO = zeroNet.biasO ∧
     (copy zeroNet (fun _ _ => 1) (fun _ _ => 1)).lastInputs = none ∧
     (copy zeroNet (fun _ _ => 1) (fun _ _ => 1)).lastHidden = none ∧
     (copy zeroNet (fun _ _ => 1) (fun _ _ => 1)).lastOutput = none ∧
     ∀ inputs, forwardOutput (copy zeroNet (fun _ _ => 1) (fun _ _ => 1)) inputs =
       forwardOutput zeroNet inputs) :=
  ⟨zeroNet_wf, clone_spec zeroNet (fun _ _ => 1) (fun _ _ => 1) zeroNet_wf⟩

/-! ### The backpropagation step against the spec formulas -/

lemma idx2_range_map {A B : ℕ} (f : ℕ → ℕ → ℝ) {h o : ℕ} (hh : h < A) (ho : o < B) :
    idx2 ((List.range A).map fun i => (List.range B).map fun j => f i j) h o = f h o := by
  rw [idx2, getD_range_map _ _ hh, getD_range_map _ _ ho]

lemma specHid_eq_hiddenActs (nn : NeuralNetwork) (inputs : List ℝ) {h : ℕ}
    (hh : h < nn.hiddenSize) :
    (hiddenActs nn inputs).getD h 0 = specHid nn inputs h := by
  rw [hiddenActs_getD nn inputs hh]
  rfl

lemma specOut_eq_forwardOutput (nn : NeuralNetwork) (inputs : List ℝ) {o : ℕ}
    (ho : o < nn.outputSize) :
    (forwardOutput nn inputs).getD o 0 = specOut nn inputs o := by
  rw [forwardOutput_getD nn inputs ho]
  unfold specOut outputPre
  congr 2
  apply Finset.sum_congr rfl
  intro h hh
  rw [specHid_eq_hiddenActs nn inputs (Finset.mem_range.mp hh)]

lemma outputErrorsImpl_getD (nn : NeuralNetwork) (inputs targets : List ℝ) {o : ℕ}
    (ho : o < nn.outputSize) :
    (outputErrorsImpl nn.outputSize targets (forwardOutput nn inputs)).getD o 0 =
      specOutputError nn inputs targets o := by
  rw [outputErrorsImpl, getD_range_map _ _ ho, specOut_eq_forwardOutput nn inputs ho]
  unfold specOutputError sigmoidDerivative
  ring

lemma hiddenErrorsImpl_getD (nn : NeuralNetwork) (inputs targets : List ℝ) {h : ℕ}
    (hh : h < nn.hiddenSize) :
    (hiddenErrorsImpl nn.hiddenSize nn.outputSize nn.weightsHO
      (outputErrorsImpl nn.outputSize targets (forwardOutput nn inputs))
      (hiddenActs nn inputs)).getD h 0 =
      specHiddenError nn inputs targets h := by
  rw [hiddenErrorsImpl, getD_range_map _ _ hh, specHid_eq_hiddenActs nn inputs hh]
  have hs : ∑ o ∈ Finset.range nn.outputSize,
      (outputErrorsImpl nn.outputSize targets (forwardOutput nn inputs)).getD o 0 *
        idx2 nn.weightsHO h o =
      ∑ o ∈ Finset.range nn.outputSize,
        specOutputError nn inputs targets o * idx2 nn.weightsHO h o :=
    Finset.sum_congr rfl fun o ho => by
      rw [outputErrorsImpl_getD nn inputs targets (Finset.mem_range.mp ho)]
  rw [hs]
  unfold specHiddenError sigmoidDerivative
  ring

lemma mseImpl_spec (nn : NeuralNetwork) (inputs targets : List ℝ) :
    mseImpl nn.outputSize targets (forwardOutput nn inputs) =
      (∑ o ∈ Finset.range nn.outputSize,
        (targets.getD o 0 - specOut nn inputs o) ^ 2) / nn.outputSize := by
  unfold mseImpl
  congr 1
  apply Finset.sum_congr rfl
  intro o ho
  rw [specOut_eq_forwardOutput nn inputs (Finset.mem_range.mp ho)]
  ring

lemma mseImpl_nonneg (outputSize : ℕ) (targets outputs : List ℝ) :
    0 ≤ mseImpl outputSize targets outputs :=
  div_nonneg (Finset.sum_nonneg fun _ _ => mul_self_nonneg _) (Nat.cast_nonneg _)

/-- Claim C1: one `train` step performs one forward pass and then the
four in-place parameter updates of the spec (hidden errors computed with
the pre-update `weightsHO`), returning the nonnegative mean squared
error over the output units. -/
theorem trainStep_spec (nn : NeuralNetwork) (inputs targets : List ℝ) (lr : ℝ)
    (hlen : inputs.length = nn.inputSize) : TrainPost nn inputs targets lr := by
  have hfp := forwardPass_eq_ok nn inputs hlen
  unfold TrainPost
  simp only [train, hfp, Option.getD_some]
  refine ⟨_, _, rfl, ?_, ?_, ?_, ?_, ?_, ?_⟩
  · intro h hh o ho
    rw [updWHO, idx2_range_map _ hh ho, outputErrorsImpl_getD nn inputs targets ho,
      specHid_eq_hiddenActs nn inputs hh]
  · intro o ho
    rw [updBO, getD_range_map _ _ ho, outputErrorsImpl_getD nn inputs targets ho]
  · intro i hi h hh
    rw [updWIH, idx2_range_map _ hi hh, hiddenErrorsImpl_getD nn inputs targets hh]
  · intro h hh
    rw [updBH, getD_range_map _ _ hh, hiddenErrorsImpl_getD nn inputs targets hh]
  · exact mseImpl_spec nn inputs targets
  · exact mseImpl_nonneg _ _ _

/-- Claim C1 witness: the training-step specification applied to the
concrete zero network, input `[0, 0, 0, 0]`, target `[1]`, learning
rate `1/10`. -/
theorem trainStep_spec_witness :
    ([0, 0, 0, 0] : List ℝ).length = zeroNet.inputSize ∧
      TrainPost zeroNet [0, 0, 0, 0] [1] (1 / 10) :=
  ⟨rfl, trainStep_spec zeroNet [0, 0, 0, 0] [1] (1 / 10) rfl⟩

/-! ### The shuffle is a permutation -/

lemma cons_set_perm {α : Type} :
    ∀ (ys : List α) (j : ℕ) (hj : j < ys.length) (y : α),
      (ys[j] :: ys.set j y).Perm (y :: ys)
  | [], j, hj, _ => absurd hj (by simp)
  | z :: zs, 0, _, y => List.Perm.swap y z zs
  | z :: zs, k + 1, hj, y => by
    have hk : k < zs.length := by simpa using hj
    have ih := cons_set_perm zs k hk y
    have step1 : ((z :: zs)[k + 1] :: (z :: zs).set (k + 1) y).Perm
        (z :: zs[k] :: zs.set k y) := by
      simp only [List.getElem_cons_succ, List.set_cons_succ]
      exact List.Perm.swap z (zs[k]) (zs.set k y)
    exact step1.trans ((ih.cons z).trans (List.Perm.swap y z zs))

lemma set_set_perm {α : Type} :
    ∀ (l : List α) (i j : ℕ) (hi : i < l.length) (hj : j < l.length),
      ((l.set i l[j]).set j l[i]).Perm l
  | [], _, _, hi, _ => absurd hi (by simp)
  | x :: xs, 0, 0, _, _ => by simp
  | x :: xs, 0, k + 1, _, hj => by
    have hk : k < xs.length := by simpa using hj
    simpa using cons_set_perm xs k hk x
  | x :: xs, k + 1, 0, hi, _ => by
    have hk : k < xs.length := by simpa using hi
    simpa using cons_set_perm xs k hk x
  | x :: xs, k + 1, m + 1, hi, hj => by
    have hk : k < xs.length := by simpa using hi
    have hm : m < xs.length := by simpa using hj
    simpa using (set_set_perm xs k m hk hm).cons x

lemma listSwap_perm {α : Type} (l : List α) (i j : ℕ) : (listSwap l i j).Perm l := by
  unfold listSwap
  cases hi : l[i]? with
  | none => exact List.Perm.refl l
  | some a =>
    cases hj : l[j]? with
    | none => exact List.Perm.refl l
    | some b =>
      obtain ⟨hi', rfl⟩ := List.getElem?_eq_some.mp hi
      obtain ⟨hj', rfl⟩ := List.getElem?_eq_some.mp hj
      exact set_set_perm l i j hi' hj'

lemma shuffleGo_perm {α : Type} (rand : ℕ → ℕ) :
    ∀ (i : ℕ) (l : List α), (shuffleGo rand i l).Perm l
  | 0, l => List.Perm.refl l
  | i + 1, l =>
    (shuffleGo_perm rand i (listSwap l (i + 1) (rand (i + 1) % (i + 2)))).trans
      (listSwap_perm l (i + 1) (rand (i + 1) % (i + 2)))

lemma shuffle_perm {α : Type} (l : List α) (rand : ℕ → ℕ) : (shuffle l rand).Perm l :=
  shuffleGo_perm rand (l.length - 1) l

/-! ### Chunking is scheduling only: batches concatenate back to the epoch pass -/

lemma chunksGo_flatten {α : Type} :
    ∀ (fuel : ℕ) (l : List α), l.length ≤ fuel → (chunksGo fuel l).flatten = l
  | 0, l, h => by
    rw [List.length_eq_zero.mp (Nat.le_zero.mp h)]
    rfl
  | fuel + 1, [], _ => rfl
  | fuel + 1, x :: xs, h => by
    have hlen : ((x :: xs).drop batchSize).length ≤ fuel := by
      simp only [List.length_drop, List.length_cons] at h ⊢
      simp only [batchSize]
      omega
    simp only [chunksGo, List.flatten_cons, chunksGo_flatten fuel _ hlen,
      List.take_append_drop]

lemma chunks_flatten {α : Type} (l : List α) : (chunks l).flatten = l :=
  chunksGo_flatten l.length l le_rfl

lemma trainSamples_append (lr : ℝ) :
    ∀ (l₁ l₂ : List Sample) (nn : NeuralNetwork) (tl : ℝ) (st : ℕ),
      trainSamples nn lr (l₁ ++ l₂) tl st =
        match trainSamples nn lr l₁ tl st with
        | .error e => .error e
        | .ok (nn1, tl1, st1) => trainSamples nn1 lr l₂ tl1 st1
  | [], l₂, nn, tl, st => rfl
  | s :: rest, l₂, nn, tl, st => by
    simp only [List.cons_append, trainSamples]
    cases htr : train nn s.inputs s.target lr with
    | error e => rfl
    | ok p => exact trainSamples_append lr rest l₂ p.1 (tl + p.2) (st + 1)

lemma trainChunks_flatten (lr : ℝ) :
    ∀ (cs : List (List Sample)) (nn : NeuralNetwork) (tl : ℝ) (st : ℕ),
      trainChunks nn lr cs tl st = trainSamples nn lr cs.flatten tl st
  | [], nn, tl, st => rfl
  | c :: rest, nn, tl, st => by
    rw [List.flatten_cons, trainSamples_append lr c rest.flatten nn tl st]
    simp only [trainChunks]
    cases hts : trainSamples nn lr c tl st with
    | error e => rfl
    | ok p => exact trainChunks_flatten lr rest p.1 p.2.1 p.2.2

/-- Processing the chunked epoch is the same as one sequential pass over
the shuffled list: the batch grouping only reorders scheduling. -/
lemma trainChunks_chunks (lr : ℝ) (l : List Sample) (nn : NeuralNetwork) (tl : ℝ) (st : ℕ) :
    trainChunks nn lr (chunks l) tl st = trainSamples nn lr l tl st := by
  rw [trainChunks_flatten, chunks_flatten]

/-! ### The epoch loop: success, sample count and statistics -/

lemma train_sizes (nn : NeuralNetwork) (inputs targets : List ℝ) (lr : ℝ)
    (hlen : inputs.length = nn.inputSize) :
    ∃ nn1 loss, train nn inputs targets lr = .ok (nn1, loss) ∧
      nn1.inputSize = nn.inputSize ∧ nn1.hiddenSize = nn.hiddenSize ∧
      nn1.outputSize = nn.outputSize := by
  have hfp := forwardPass_eq_ok nn inputs hlen
  simp only [train, hfp]
  exact ⟨_, _, rfl, rfl, rfl, rfl⟩

lemma trainSamples_ok (lr : ℝ) :
    ∀ (samples : List Sample) (nn : NeuralNetwork) (tl : ℝ) (st : ℕ),
      (∀ s ∈ samples, s.inputs.length = nn.inputSize) →
      ∃ nn1 tl1, trainSamples nn lr samples tl st = .ok (nn1, tl1, st + samples.length) ∧
        nn1.inputSize = nn.inputSize
  | [], nn, tl, st, _ => ⟨nn, tl, by simp [trainSamples], rfl⟩
  | s :: rest, nn, tl, st, hval => by
    obtain ⟨nn2, loss, htr, h1, _, _⟩ :=
      train_sizes nn s.inputs s.target lr (hval s (by simp))
    obtain ⟨nn1, tl1, hrec, g1⟩ := trainSamples_ok lr rest nn2 (tl + loss) (st + 1)
      (fun x hx => by rw [hval x (by simp [hx]), ← h1])
    refine ⟨nn1, tl1, ?_, g1.trans h1⟩
    simp only [trainSamples, htr, hrec, List.length_cons]
    have hst : st + 1 + rest.length = st + (rest.length + 1) := by omega
    rw [hst]

lemma runEpochsLoop_ok (lr : ℝ) (rand : ℕ → ℕ → ℕ) (data : List Sample) :
    ∀ (k e : ℕ) (nn : NeuralNetwork) (tl : ℝ) (st : ℕ),
      (∀ s ∈ data, s.inputs.length = nn.inputSize) →
      ∃ nn1 tl1,
        runEpochsLoop lr rand data e k nn tl st = .ok (nn1, tl1, st + k * data.length) ∧
        nn1.inputSize = nn.inputSize
  | 0, e, nn, tl, st, _ => ⟨nn, tl, by simp [runEpochsLoop], rfl⟩
  | k + 1, e, nn, tl, st, hval => by
    have hperm := shuffle_perm data (rand e)
    have hvalsh : ∀ s ∈ shuffle data (rand e), s.inputs.length = nn.inputSize :=
      fun s hs => hval s (hperm.mem_iff.mp hs)
    obtain ⟨nn2, tl2, hts, h1⟩ := trainSamples_ok lr (shuffle data (rand e)) nn tl st hvalsh
    rw [hperm.length_eq] at hts
    have hbody : trainChunks nn lr (chunks (shuffle data (rand e))) tl st =
        .ok (nn2, tl2, st + data.length) := by
      rw [trainChunks_chunks, hts]
    obtain ⟨nn1, tl1, hrec, g1⟩ := runEpochsLoop_ok lr rand data k (e + 1) nn2 tl2
      (st + data.length) (fun s hs => by rw [hval s hs, ← h1])
    refine ⟨nn1, tl1, ?_, g1.trans h1⟩
    simp only [runEpochsLoop, hbody, hrec]
    have hst : st + data.length + k * data.length = st + (k + 1) * data.length := by ring
    rw [hst]

/-- The full behaviour of `Trainer.train` on a buffer of at least
`batchSize` valid samples: the epoch loop succeeds, processes exactly
`epochs * bufferLength` samples, and the trainer is updated with
`currentLoss = totalLoss / samplesTrained` and
`trainedEpochs += epochs`, the buffer untouched. -/
lemma trainer_train_spec (t : Trainer) (lr : ℝ) (epochs : ℕ) (rand : ℕ → ℕ → ℕ)
    (hval : ∀ s ∈ t.trainingData, s.inputs.length = t.nn.inputSize)
    (hge : batchSize ≤ t.trainingData.length) :
    ∃ nn1 totalLoss,
      runEpochsLoop lr rand t.trainingData 0 epochs t.nn 0 0 =
        .ok (nn1, totalLoss, epochs * t.trainingData.length) ∧
      Trainer.train t lr epochs rand = .ok
        ({ t with
            nn := nn1
            currentLoss := totalLoss / ((epochs * t.trainingData.length : ℕ) : ℝ)
            trainedEpochs := t.trainedEpochs + epochs },
          totalLoss / ((epochs * t.trainingData.length : ℕ) : ℝ)) := by
  obtain ⟨nn1, totalLoss, hrun, _⟩ :=
    runEpochsLoop_ok lr rand t.trainingData epochs 0 t.nn 0 0 hval
  rw [Nat.zero_add] at hrun
  refine ⟨nn1, totalLoss, hrun, ?_⟩
  rw [Trainer.train, if_neg (Nat.not_lt.mpr hge), hrun]

lemma push_evict_spec (l : List Sample) (s : Sample) (hl : l.length ≤ maxSamples) :
    (if (l ++ [s]).length > maxSamples then (l ++ [s]).tail else l ++ [s]) =
      (if l.length = maxSamples then l.tail else l) ++ [s] ∧
    (if (l ++ [s]).length > maxSamples then (l ++ [s]).tail else l ++ [s]).length ≤
      maxSamples := by
  by_cases hfull : l.length = maxSamples
  · have hgt : (l ++ [s]).length > maxSamples := by
      simp only [List.length_append, List.length_cons, List.length_nil]
      omega
    rw [if_pos hgt, if_pos hfull]
    cases l with
    | nil => simp [maxSamples] at hfull
    | cons d ds =>
      refine ⟨by simp, ?_⟩
      simp only [List.length_cons] at hfull
      simp only [List.cons_append, List.tail_cons, List.length_append,
        List.length_cons, List.length_nil]
      omega
  · have hle : ¬ (l ++ [s]).length > maxSamples := by
      simp only [List.length_append, List.length_cons, List.length_nil]
      omega
    rw [if_neg hle, if_neg hfull]
    refine ⟨rfl, ?_⟩
    simp only [List.length_append, List.length_cons, List.length_nil]
    omega

lemma addSample_data (t : Trainer) (gs : GameState) (a : ℝ)
    (hcap : t.trainingData.length ≤ maxSamples) :
    ∃ t1, addSample t (some gs) a = .ok t1 ∧
      t1.trainingData.length ≤ maxSamples ∧
      t1.trainingData =
        (if t.trainingData.length = maxSamples then t.trainingData.tail
          else t.trainingData) ++ [sampleOf gs a] ∧
      t1.totalSamples = t1.trainingData.length := by
  obtain ⟨hdata, hlen⟩ := push_evict_spec t.trainingData (sampleOf gs a) hcap
  exact ⟨_, rfl, hlen, hdata, rfl⟩

lemma trainer_train_data (t : Trainer) (lr : ℝ) (epochs : ℕ) (rand : ℕ → ℕ → ℕ)
    (t1 : Trainer) (r : ℝ) (h : Trainer.train t lr epochs rand = .ok (t1, r)) :
    t1.trainingData = t.trainingData := by
  rw [Trainer.train] at h
  by_cases hlt : t.trainingData.length < batchSize
  · rw [if_pos hlt] at h
    simp only [Except.ok.injEq, Prod.mk.injEq] at h
    rw [← h.1]
  · rw [if_neg hlt] at h
    cases hrun : runEpochsLoop lr rand t.trainingData 0 epochs t.nn 0 0 with
    | error e =>
      rw [hrun] at h
      cases h
    | ok p =>
      rw [hrun] at h
      simp only [Except.ok.injEq, Prod.mk.injEq] at h
      rw [← h.1]

/-- Claim C3: the buffer never exceeds its 10000-sample capacity after
`addSample`; a full buffer evicts exactly the oldest element (index 0)
while preserving the order of the rest; and every other buffer
operation (reset, a successful training run, a rejected sample)
maintains the invariant. -/
theorem buffer_fifo (t : Trainer) (gs : GameState) (a : ℝ)
    (hcap : t.trainingData.length ≤ maxSamples) : BufferPost t gs a := by
  refine ⟨addSample_data t gs a hcap, rfl, ?_, rfl⟩
  intro lr epochs rand t1 r h
  exact trainer_train_data t lr epochs rand t1 r h

/-- Claim C3 witness: the buffer specification at the concrete empty
trainer and the all-zero game state. -/
theorem buffer_fifo_witness :
    emptyTrainer.trainingData.length ≤ maxSamples ∧
      BufferPost emptyTrainer
        { birdY := 0, birdVelocity := 0, pipeDistance := 0, pipeGapY := 0 } 1 :=
  ⟨by norm_num [emptyTrainer, maxSamples],
    buffer_fifo emptyTrainer _ 1 (by norm_num [emptyTrainer, maxSamples])⟩

/-- Claim C4: `Trainer.train` with a buffer below `batchSize` is a soft
no-op returning the zero sentinel with the whole trainer unchanged;
otherwise each epoch processes a shuffled permutation of the buffer in
contiguous chunks of `batchSize` (chunking being pure scheduling), calls
the per-sample training step exactly `epochs * bufferLength` times,
increments `trainedEpochs` by `epochs`, and sets and returns
`currentLoss = totalLoss / samplesTrained`. -/
theorem runEpochs_spec (t : Trainer) (lr : ℝ) (epochs : ℕ) (rand : ℕ → ℕ → ℕ)
    (hval : ∀ s ∈ t.trainingData, s.inputs.length = t.nn.inputSize) :
    RunEpochsPost t lr epochs rand := by
  refine ⟨?_, fun e => shuffle_perm _ _,
    fun nn l tl st => trainChunks_chunks lr l nn tl st, ?_⟩
  · intro hlt
    rw [Trainer.train, if_pos hlt]
  · intro hge
    exact trainer_train_spec t lr epochs rand hval hge

lemma t32_valid : ∀ s ∈ t32.trainingData, s.inputs.length = t32.nn.inputSize := by
  intro s hs
  simp only [t32, List.mem_replicate] at hs
  rw [hs.2]
  rfl

/-- Claim C4 witness: the epoch-scheduler specification at a concrete
trainer holding exactly 32 copies of the all-zero sample. -/
theorem runEpochs_spec_witness :
    (∀ s ∈ t32.trainingData, s.inputs.length = t32.nn.inputSize) ∧
      RunEpochsPost t32 (1 / 10) 1 (fun _ _ => 0) :=
  ⟨t32_valid, runEpochs_spec t32 (1 / 10) 1 (fun _ _ => 0) t32_valid⟩

/-- Claim C10: on a big-enough buffer the `totalLoss / samplesTrained`
division that defines `currentLoss` has divisor `epochs * bufferLength`:
positive whenever `epochs ≥ 1`, but literally zero when `epochs = 0`
(in which case the code still performs the division, a 0/0). -/
theorem currentLoss_division (t : Trainer) (lr : ℝ) (epochs : ℕ) (rand : ℕ → ℕ → ℕ)
    (hval : ∀ s ∈ t.trainingData, s.inputs.length = t.nn.inputSize)
    (hge : batchSize ≤ t.trainingData.length) : LossDivisorPost t lr epochs rand := by
  obtain ⟨nn1, totalLoss, hrun, htr⟩ := trainer_train_spec t lr epochs rand hval hge
  refine ⟨_, totalLoss, htr, rfl, ?_, ?_⟩
  · intro he
    have hpos : 0 < epochs * t.trainingData.length :=
      Nat.mul_pos he (lt_of_lt_of_le (by norm_num [batchSize]) hge)
    exact_mod_cast hpos
  · intro he
    subst he
    have h0 : (0 * t.trainingData.length : ℕ) = 0 := by simp
    have hzero : runEpochsLoop lr rand t.trainingData 0 0 t.nn 0 0 =
        .ok (t.nn, (0 : ℝ), 0) := rfl
    rw [hzero] at hrun
    simp only [Except.ok.injEq, Prod.mk.injEq] at hrun
    refine ⟨by rw [h0]; simp, hrun.2.1.symm, ?_⟩
    show totalLoss / ((0 * t.trainingData.length : ℕ) : ℝ) = totalLoss / (0 : ℝ)
    rw [h0, Nat.cast_zero]

/-- Claim C10 witness: the divisor specification at the concrete
32-sample trainer (and, via the post-state, at one epoch). -/
theorem currentLoss_division_witness :
    (∀ s ∈ t32.trainingData, s.inputs.length = t32.nn.inputSize) ∧
      batchSize ≤ t32.trainingData.length ∧
      LossDivisorPost t32 (1 / 10) 1 (fun _ _ => 0) :=
  ⟨t32_valid, by norm_num [t32, batchSize],
    currentLoss_division t32 (1 / 10) 1 (fun _ _ => 0) t32_valid
      (by norm_num [t32, batchSize])⟩

end
